import Mathlib

/-!
# Verification of the content-scrape pipeline

A shallow embedding of `src/content-scrape.js`: a scraper that resolves a URL
list (from a sitemap tree or a line file), deduplicates it, fetches every page
(bounded concurrency, arbitrary completion order), extracts a fixed set of
content fields from the HTML with structural selectors, reorders the rows to
input order, and emits one row per URL.

Conventions of the embedding:
* JavaScript strings are `String`; `undefined`-or-string values are
  `Option String`; JS truthiness of a string is `s ≠ ""`.
* The parsed HTML document (`cheerio.load` output) is a `Node` tree; the
  loader itself is error-tolerant and total, so pages are modelled directly
  as their parsed trees.
* Asynchrony: the per-URL tasks are deterministic, only their completion
  order is not; a run's collected `rows` list is therefore an arbitrary
  permutation of the per-URL results.
* All functions are total and computable, and recursion is structural, so
  concrete runs evaluate by `rfl`/`decide`.
-/

/-! ## JavaScript whitespace and `cleanText` (content-scrape.js lines 36-42) -/

/-- The ECMAScript `\s` character class (WhiteSpace ∪ LineTerminator), which is
also the character set removed by `String.prototype.trim`.  Note it contains
U+00A0 (no-break space). -/
def isJsWs (c : Char) : Bool :=
  c = ' ' || c = '\t' || c = '\n' || c = '\r' || c.toNat = 11 || c.toNat = 12 ||
  c.toNat = 0xA0 || c.toNat = 0x1680 || (0x2000 ≤ c.toNat && c.toNat ≤ 0x200A) ||
  c.toNat = 0x2028 || c.toNat = 0x2029 || c.toNat = 0x202F || c.toNat = 0x205F ||
  c.toNat = 0x3000 || c.toNat = 0xFEFF

/-- `String.prototype.replace(/\s+/g, " ")`: every maximal run of `\s`
characters becomes a single ASCII space.  The boolean argument records whether
the previously scanned character was part of a whitespace run. -/
def collapseWsAux : Bool → List Char → List Char
  | _, [] => []
  | prevWs, c :: cs =>
    if isJsWs c then
      (if prevWs then [] else [' ']) ++ collapseWsAux true cs
    else
      c :: collapseWsAux false cs

/-- `String.prototype.replace(/ /g, " ")`. -/
def replaceNbsp (l : List Char) : List Char :=
  l.map (fun c => if c.toNat = 0xA0 then ' ' else c)

/-- Drop trailing `\s` characters (the `trimEnd` half of `trim`). -/
def dropTrailingWs : List Char → List Char
  | [] => []
  | c :: cs =>
    match dropTrailingWs cs with
    | [] => if isJsWs c then [] else [c]
    | r => c :: r

/-- `String.prototype.trim()`. -/
def trimJs (l : List Char) : List Char :=
  dropTrailingWs (l.dropWhile isJsWs)

/-- `cleanText` (content-scrape.js lines 36-42): guard falsy input, collapse
whitespace runs, replace no-break spaces, trim. -/
def cleanText (s : String) : String :=
  if s = "" then ""
  else String.mk (trimJs (replaceNbsp (collapseWsAux false s.data)))

/-- Maximal runs of non-whitespace characters ("words") of a character list,
with respect to a whitespace predicate; `acc` is the reversed word in
progress. -/
def wordsAuxBy (p : Char → Bool) : List Char → List Char → List (List Char)
  | acc, [] => if acc = [] then [] else [acc.reverse]
  | acc, c :: cs =>
    if p c then
      (if acc = [] then wordsAuxBy p [] cs else acc.reverse :: wordsAuxBy p [] cs)
    else
      wordsAuxBy p (c :: acc) cs

/-- The JS-whitespace-separated tokens of a character list. -/
def jsTokens (l : List Char) : List (List Char) :=
  wordsAuxBy isJsWs [] l

/-! ## URL resolution and `absolutizeUrl` (content-scrape.js lines 44-51) -/

/-- Characters accepted in a host name by the restricted URL model. -/
def isHostChar (c : Char) : Bool :=
  c.isLower || c.isDigit || c = '.' || c = '-'

/-- Characters accepted in a path by the restricted URL model. -/
def isPathChar (c : Char) : Bool :=
  c.isAlpha || c.isDigit || c = '/' || c = '.' || c = '-' || c = '_' || c = '~'

/-- Split a character list at every occurrence of a separator character
(keeping empty pieces). -/
def splitCharAux (sep : Char) : List Char → List Char → List (List Char)
  | acc, [] => [acc.reverse]
  | acc, c :: cs =>
    if c = sep then acc.reverse :: splitCharAux sep [] cs
    else splitCharAux sep (c :: acc) cs

/-- No path segment is `.` or `..` (so WHATWG dot-segment normalisation is
the identity on the path). -/
def noDotSegments (path : List Char) : Bool :=
  (splitCharAux '/' [] path).all (fun seg => seg ≠ ['.'] && seg ≠ ['.', '.'])

/-- Scheme, host and path of a parsed absolute http(s) URL. -/
structure UrlParts where
  scheme : String
  host : String
  path : String
  deriving Repr, DecidableEq

/-- Strip a literal prefix from a character list. -/
def stripPrefixL : List Char → List Char → Option (List Char)
  | [], s => some s
  | _ :: _, [] => none
  | p :: ps, c :: cs => if c = p then stripPrefixL ps cs else none

/-- Parse an absolute http(s) URL that is already in WHATWG-normalised form:
lowercase scheme `http`/`https`, nonempty lowercase host, nonempty path
starting with `/`, no `.`/`..` segments, no query/fragment/userinfo/port. -/
def parseHttpUrl (s : String) : Option UrlParts :=
  let cs := s.data
  let parsed : Option (String × List Char) :=
    match stripPrefixL "https://".data cs with
    | some rest => some ("https", rest)
    | none =>
      match stripPrefixL "http://".data cs with
      | some rest => some ("http", rest)
      | none => none
  match parsed with
  | none => none
  | some (scheme, rest) =>
    let host := rest.takeWhile (fun c => c ≠ '/')
    let path := rest.drop host.length
    if host ≠ [] && host.all isHostChar && path.head? = some '/' &&
        path.all isPathChar && noDotSegments path then
      some ⟨scheme, String.mk host, String.mk path⟩
    else
      none

/-- Modelled from the spec: the WHATWG URL resolution performed by the
runtime's `new URL(ref, base)` builtin, which is not part of this
repository's sources.  The model is restricted to the fragment the spec
exercises: bases that are already-normalised absolute http(s) URLs and
references that are either such absolute URLs or path-absolute (`/...`)
references; anything outside the fragment is conservatively reported as
unresolvable (`none`, standing for the builtin throwing). -/
def urlResolve (ref base : String) : Option String :=
  match parseHttpUrl ref with
  | some _ => some ref
  | none =>
    match parseHttpUrl base with
    | none => none
    | some b =>
      match ref.data with
      | '/' :: '/' :: _ => none
      | '/' :: restPath =>
        if ('/' :: restPath).all isPathChar && noDotSegments ('/' :: restPath) then
          some (b.scheme ++ "://" ++ b.host ++ ref)
        else none
      | _ => none

/-- `absolutizeUrl` (content-scrape.js lines 44-51): empty/falsy input yields
`""`; otherwise resolve against the page URL, passing the value through
unchanged when resolution fails (the `catch` branch). -/
def absolutizeUrl (maybeRelative pageUrl : String) : String :=
  if maybeRelative = "" then ""
  else
    match urlResolve maybeRelative pageUrl with
    | some u => u
    | none => maybeRelative

/-- An output of the restricted resolver always carries an http(s) scheme. -/
def startsHttp (s : String) : Bool :=
  (stripPrefixL "https://".data s.data).isSome || (stripPrefixL "http://".data s.data).isSome

/-! ## Parsed HTML documents (the `cheerio.load` output) -/

/-- A node of the parsed HTML tree: an element with tag name, attribute list
and children, or a text node. -/
inductive Node where
  | elem (tag : String) (attrs : List (String × String)) (children : List Node)
  | text (s : String)
  deriving Repr

/-- First value of an attribute (the HTML parser keeps the first occurrence
of a duplicated attribute name). -/
def nodeAttr (n : Node) (key : String) : Option String :=
  match n with
  | .elem _ attrs _ => (attrs.find? (fun p => p.1 == key)).map (fun p => p.2)
  | .text _ => none

/-- Tag name of a node (`""` for text nodes). -/
def tagOf : Node → String
  | .elem t _ _ => t
  | .text _ => ""

/-- Whether a node is an element. -/
def isElemNode : Node → Bool
  | .elem _ _ _ => true
  | .text _ => false

mutual

/-- All descendants of a node in document (pre)order, the node itself
excluded. -/
def Node.descendants : Node → List Node
  | .text _ => []
  | .elem _ _ cs => descendantsList cs

/-- Descendants-with-self of every node of a list, in document order. -/
def descendantsList : List Node → List Node
  | [] => []
  | c :: cs => c :: Node.descendants c ++ descendantsList cs

end

mutual

/-- The concatenated text of a node (cheerio's `.text()`). -/
def Node.textContent : Node → String
  | .text s => s
  | .elem _ _ cs => textContentList cs

/-- The concatenated text of a node list. -/
def textContentList : List Node → String
  | [] => ""
  | c :: cs => Node.textContent c ++ textContentList cs

end

/-- ASCII whitespace, the separator set of the HTML `class` attribute. -/
def isHtmlWs (c : Char) : Bool :=
  c = ' ' || c = '\t' || c = '\n' || c = '\r' || c.toNat = 12

/-- The class list of a node: its `class` attribute split on whitespace. -/
def classListOf (n : Node) : List String :=
  (wordsAuxBy isHtmlWs [] ((nodeAttr n "class").getD "").data).map String.mk

/-- Class-selector membership. -/
def hasClass (n : Node) (c : String) : Bool :=
  (classListOf n).contains c

/-- Attribute-presence selector (`[data-src]`). -/
def hasAttr (n : Node) (key : String) : Bool :=
  (nodeAttr n key).isSome

/-- All elements of the document matching a predicate, in document order
(cheerio `$(sel)` on the loaded document). -/
def selectAll (root : Node) (p : Node → Bool) : List Node :=
  root.descendants.filter (fun n => isElemNode n && p n)

/-- First match in the document (`$(sel).first()`); `none` is the empty
selection. -/
def selectFirst (root : Node) (p : Node → Bool) : Option Node :=
  (selectAll root p).head?

/-- `.find(sel)` under a possibly-empty selection: matching descendants in
document order. -/
def findAllIn (n? : Option Node) (p : Node → Bool) : List Node :=
  match n? with
  | none => []
  | some n => selectAll n p

/-- `.find(sel).first()` under a possibly-empty selection. -/
def findFirstIn (n? : Option Node) (p : Node → Bool) : Option Node :=
  (findAllIn n? p).head?

/-- `.children()` under a possibly-empty selection: element children only. -/
def childrenElems (n? : Option Node) : List Node :=
  match n? with
  | none => []
  | some (.text _) => []
  | some (.elem _ _ cs) => cs.filter isElemNode

/-- `.attr(key)` under a possibly-empty selection. -/
def attrIn (n? : Option Node) (key : String) : Option String :=
  n?.bind (fun n => nodeAttr n key)

/-- `.text()` under a possibly-empty selection (empty selection gives `""`). -/
def textIn (n? : Option Node) : String :=
  match n? with
  | some n => n.textContent
  | none => ""

/-- JavaScript `x || ""` on an `undefined`-or-string value. -/
def jsOrEmpty (o : Option String) : String :=
  match o with
  | some s => s
  | none => ""

/-- JavaScript `a || b` on strings (`""` is the only falsy string). -/
def jsOrS (a b : String) : String :=
  if a = "" then b else a

/-! ## The `background-image` regex (content-scrape.js line 118)

The source matches `/background-image\s*:\s*url\((['"]?)(.*?)\1\)/i` against
the banner wrapper's inline style and uses capture group 2. -/

/-- Line terminators, the characters `.` does not match in a JS regex. -/
def isLineTerm (c : Char) : Bool :=
  c = '\n' || c = '\r' || c.toNat = 0x2028 || c.toNat = 0x2029

/-- Case-insensitively strip a literal pattern (the regex has the `i` flag). -/
def stripPrefixCI : List Char → List Char → Option (List Char)
  | [], s => some s
  | _ :: _, [] => none
  | p :: ps, c :: cs => if c.toLower = p.toLower then stripPrefixCI ps cs else none

/-- Whether `stop` is a literal prefix of `s`. -/
def startsWithL (stop s : List Char) : Bool :=
  (stripPrefixL stop s).isSome

/-- The lazy `(.*?)` followed by the literal `stop`: the shortest prefix of
non-line-terminator characters whose continuation starts with `stop`. -/
def lazyUpTo (stop : List Char) : List Char → Option (List Char)
  | [] => none
  | c :: cs =>
    if startsWithL stop (c :: cs) then some []
    else if isLineTerm c then none
    else (lazyUpTo stop cs).map (fun t => c :: t)

/-- Try the tail of the regex at one position: `background-image`, optional
whitespace, `:`, optional whitespace, `url(`, then the optionally-quoted
lazily-matched group 2 closed by `)` (on failure of the quoted alternative the
optional quote group backtracks to empty). -/
def tryBgAt (s : List Char) : Option (List Char) :=
  match stripPrefixCI "background-image".data s with
  | none => none
  | some r1 =>
    match r1.dropWhile isJsWs with
    | ':' :: r2 =>
      match stripPrefixCI "url(".data (r2.dropWhile isJsWs) with
      | none => none
      | some r3 =>
        match r3 with
        | [] => none
        | c :: rest =>
          if c.toNat = 39 || c.toNat = 34 then
            match lazyUpTo [c, ')'] rest with
            | some content => some content
            | none => lazyUpTo [')'] (c :: rest)
          else lazyUpTo [')'] (c :: rest)
    | _ => none

/-- Leftmost match: try every start position from the left. -/
def bgScan : List Char → Option (List Char)
  | [] => none
  | c :: cs =>
    match tryBgAt (c :: cs) with
    | some content => some content
    | none => bgScan cs

/-- Capture group 2 of the first match of the `background-image` regex. -/
def matchBgImage (style : String) : Option String :=
  (bgScan style.data).map String.mk

/-! ## `extractPageData` (content-scrape.js lines 104-221) -/

/-- One extracted related-articles tile. -/
structure Tile where
  heading : String
  description : String
  linkTitle : String
  linkUrl : String
  deriving Repr, DecidableEq

/-- The all-empty placeholder tile pushed while fewer than three tiles were
found (content-scrape.js lines 188-190). -/
def emptyTile : Tile :=
  { heading := "", description := "", linkTitle := "", linkUrl := "" }

/-- The flat record extracted for one page, one field per CSV column. -/
structure PageRecord where
  url : String
  banner_image : String
  banner_title : String
  banner_description : String
  banner_button_text : String
  banner_button_link : String
  main_description : String
  video_heading : String
  video_embed_url : String
  tile1_heading : String
  tile1_description : String
  tile1_link_title : String
  tile1_link_url : String
  tile2_heading : String
  tile2_description : String
  tile2_link_title : String
  tile2_link_url : String
  tile3_heading : String
  tile3_description : String
  tile3_link_title : String
  tile3_link_url : String
  deriving Repr, DecidableEq

/-- `div.banner` selector. -/
def bannerSel (n : Node) : Bool :=
  tagOf n == "div" && hasClass n "banner"

/-- `div.main-description` selector. -/
def mainDescSel (n : Node) : Bool :=
  tagOf n == "div" && hasClass n "main-description"

/-- `div.article-video` selector. -/
def videoSel (n : Node) : Bool :=
  tagOf n == "div" && hasClass n "article-video"

/-- `div.related-articles` selector. -/
def tilesSel (n : Node) : Bool :=
  tagOf n == "div" && hasClass n "related-articles"

/-- `.tile, .card, article, li, .related-article` selector list. -/
def tileItemSel (n : Node) : Bool :=
  hasClass n "tile" || hasClass n "card" || tagOf n == "article" ||
  tagOf n == "li" || hasClass n "related-article"

/-- Tag selector. -/
def tagSel (t : String) (n : Node) : Bool :=
  tagOf n == t

/-- `h1,h2,h3` selector list. -/
def headingSel123 (n : Node) : Bool :=
  tagOf n == "h1" || tagOf n == "h2" || tagOf n == "h3"

/-- `h1,h2,h3,h4` selector list. -/
def headingSel1234 (n : Node) : Bool :=
  headingSel123 n || tagOf n == "h4"

/-- `a, button` selector list. -/
def interactiveSel (n : Node) : Bool :=
  tagOf n == "a" || tagOf n == "button"

/-- The first `div.banner` of the document. -/
def bannerOf (root : Node) : Option Node :=
  selectFirst root bannerSel

/-- `$banner.find("img").first().attr("src")` coerced through JS truthiness
(`undefined` and `""` both fall through to the style branch). -/
def bannerImgSrc (root : Node) : String :=
  jsOrEmpty (attrIn (findFirstIn (bannerOf root) (tagSel "img")) "src")

/-- `$banner.attr("style") || ""`. -/
def bannerStyle (root : Node) : String :=
  jsOrEmpty (attrIn (bannerOf root) "style")

/-- Banner image (content-scrape.js lines 110-120): first `<img>` src when
truthy, else capture group 2 of the `background-image` regex on the wrapper's
inline style; either value is absolutized. -/
def bannerImageOf (root : Node) (pageUrl : String) : String :=
  let src := bannerImgSrc root
  if src = "" then
    match matchBgImage (bannerStyle root) with
    | some v => if v = "" then "" else absolutizeUrl v pageUrl
    | none => ""
  else absolutizeUrl src pageUrl

/-- Banner title (lines 124-126): first `h1` text, else first `h2` text. -/
def bannerTitleOf (root : Node) : String :=
  jsOrS (cleanText (textIn (findFirstIn (bannerOf root) (tagSel "h1"))))
    (cleanText (textIn (findFirstIn (bannerOf root) (tagSel "h2"))))

/-- Banner description (lines 128-129): first `p` text. -/
def bannerDescriptionOf (root : Node) : String :=
  cleanText (textIn (findFirstIn (bannerOf root) (tagSel "p")))

/-- Banner button (lines 131-135): first `a, button` with nonempty cleaned
text. -/
def bannerBtnOf (root : Node) : Option Node :=
  ((findAllIn (bannerOf root) interactiveSel).filter
    (fun el => (cleanText el.textContent).length > 0)).head?

/-- The first `div.article-video` of the document. -/
def videoOf (root : Node) : Option Node :=
  selectFirst root videoSel

/-- `$video.find("iframe").first().attr("src")` through JS truthiness. -/
def videoIframeSrc (root : Node) : String :=
  jsOrEmpty (attrIn (findFirstIn (videoOf root) (tagSel "iframe")) "src")

/-- `$video.find("[data-src]").first().attr("data-src")` through JS
truthiness. -/
def videoDataSrc (root : Node) : String :=
  jsOrEmpty (attrIn (findFirstIn (videoOf root) (fun n => hasAttr n "data-src")) "data-src")

/-- `$video.find("a").first().attr("href")` through JS truthiness. -/
def videoAHref (root : Node) : String :=
  jsOrEmpty (attrIn (findFirstIn (videoOf root) (tagSel "a")) "href")

/-- Video embed URL (lines 148-156): `iframeSrc || dataSrc || aHref || ""`,
absolutized. -/
def videoEmbedUrlOf (root : Node) (pageUrl : String) : String :=
  absolutizeUrl (jsOrS (videoIframeSrc root) (jsOrS (videoDataSrc root) (videoAHref root))) pageUrl

/-- The first `div.related-articles` of the document. -/
def tilesWrapOf (root : Node) : Option Node :=
  selectFirst root tilesSel

/-- Tile candidates (lines 163-167): the tile-shaped selector list, falling
back to the wrapper's direct children when it matches nothing. -/
def tileItems (root : Node) : List Node :=
  let found := findAllIn (tilesWrapOf root) tileItemSel
  if found.length = 0 then childrenElems (tilesWrapOf root) else found

/-- One tile candidate's fields (lines 174-179). -/
def mkTile (pageUrl : String) (el : Node) : Tile :=
  let heading := cleanText (textIn (findFirstIn (some el) headingSel1234))
  let description := cleanText (textIn (findFirstIn (some el) (tagSel "p")))
  let link := ((findAllIn (some el) (tagSel "a")).filter
    (fun a => (cleanText a.textContent).length > 0)).head?
  { heading := heading
    description := description
    linkTitle := cleanText (textIn link)
    linkUrl := absolutizeUrl (jsOrEmpty (attrIn link "href")) pageUrl }

/-- `if (heading || description || linkTitle || linkUrl)` (line 182). -/
def tileNonEmpty (t : Tile) : Bool :=
  t.heading != "" || t.description != "" || t.linkTitle != "" || t.linkUrl != ""

/-- The `.each` loop over tile candidates (lines 169-185): skip once three
tiles are collected, push a candidate only when some field is nonempty. -/
def tilesLoop (pageUrl : String) (items : List Node) : List Tile :=
  items.foldl
    (fun acc el =>
      if acc.length ≥ 3 then acc
      else
        let t := mkTile pageUrl el
        if tileNonEmpty t then acc ++ [t] else acc)
    []

/-- The `while (tiles.length < 3) push` padding (lines 188-190). -/
def padTiles (ts : List Tile) : List Tile :=
  ts ++ List.replicate (3 - ts.length) emptyTile

/-- The final three tile slots of a page. -/
def tilesOf (root : Node) (pageUrl : String) : List Tile :=
  padTiles (tilesLoop pageUrl (tileItems root))

/-- `tiles[i]` after the padding loop. -/
def tileAt (ts : List Tile) (i : Nat) : Tile :=
  (ts.get? i).getD emptyTile

/-- `extractPageData` (content-scrape.js lines 104-221): the flat record of
one page.  Total by construction — every selector miss flows through the
empty selection (`none`) into `""` fields. -/
def extractPageData (root : Node) (pageUrl : String) : PageRecord :=
  let bannerBtn := bannerBtnOf root
  let tiles := tilesOf root pageUrl
  { url := pageUrl
    banner_image := bannerImageOf root pageUrl
    banner_title := bannerTitleOf root
    banner_description := bannerDescriptionOf root
    banner_button_text := cleanText (textIn bannerBtn)
    banner_button_link := absolutizeUrl (jsOrEmpty (attrIn bannerBtn "href")) pageUrl
    main_description := cleanText (textIn (selectFirst root mainDescSel))
    video_heading := cleanText (textIn (findFirstIn (videoOf root) headingSel123))
    video_embed_url := videoEmbedUrlOf root pageUrl
    tile1_heading := (tileAt tiles 0).heading
    tile1_description := (tileAt tiles 0).description
    tile1_link_title := (tileAt tiles 0).linkTitle
    tile1_link_url := (tileAt tiles 0).linkUrl
    tile2_heading := (tileAt tiles 1).heading
    tile2_description := (tileAt tiles 1).description
    tile2_link_title := (tileAt tiles 1).linkTitle
    tile2_link_url := (tileAt tiles 1).linkUrl
    tile3_heading := (tileAt tiles 2).heading
    tile3_description := (tileAt tiles 2).description
    tile3_link_title := (tileAt tiles 2).linkTitle
    tile3_link_url := (tileAt tiles 2).linkUrl }

/-! ## URL sources (content-scrape.js lines 66-99) -/

/-- A parsed sitemap document as delivered by `parseStringPromise`.  A
`urlset` document carries its `<url>` entries' optional `loc` values in
document order; a `sitemapindex` document carries, in document order, the
child documents fetched from its (loc-filtered) `<sitemap>` entries; any
other shape is `malformed`.  Child fetches themselves are not modelled (a
network failure there would propagate exactly like a malformed child). -/
inductive SitemapDoc where
  | urlset (entries : List (Option String))
  | sitemapindex (children : List SitemapDoc)
  | malformed
  deriving Repr

/-- The error message thrown at content-scrape.js line 90. -/
def malformedSitemapMsg : String :=
  "Unknown sitemap format (expected urlset or sitemapindex)."

mutual

/-- `getUrlsFromSitemap` (content-scrape.js lines 66-91): a `urlset` yields
its present, nonempty locations in document order; a `sitemapindex`
recursively resolves each child in order and concatenates; anything else
throws. -/
def getUrlsFromSitemap : SitemapDoc → Except String (List String)
  | .urlset entries => .ok ((entries.filterMap id).filter (fun s => s != ""))
  | .sitemapindex children => sitemapChildren children
  | .malformed => .error malformedSitemapMsg

/-- The `for (const sm of sitemapLocs)` accumulation loop (lines 82-87): the
first failing child aborts the whole resolution. -/
def sitemapChildren : List SitemapDoc → Except String (List String)
  | [] => .ok []
  | c :: cs =>
    match getUrlsFromSitemap c with
    | .error e => .error e
    | .ok l =>
      match sitemapChildren cs with
      | .error e => .error e
      | .ok ls => .ok (l ++ ls)

end

/-- Split raw file text on `/\r?\n/`: a `\n` terminates a line, consuming one
immediately preceding `\r`; `acc` is the reversed line in progress. -/
def splitLinesAux : List Char → List Char → List (List Char)
  | acc, [] => [acc.reverse]
  | acc, c :: cs =>
    if c = '\n' then
      (match acc with
        | '\r' :: acc2 => acc2.reverse
        | _ => acc.reverse) :: splitLinesAux [] cs
    else splitLinesAux (c :: acc) cs

/-- `getUrlsFromFile` (content-scrape.js lines 93-99) applied to the file's
text: split into lines, trim each, drop blank lines and `#` comments. -/
def getUrlsFromFile (raw : String) : List String :=
  (((splitLinesAux [] raw.data).map trimJs).filter
    (fun l => !l.isEmpty && l.head? != some '#')).map String.mk

/-! ## The main pipeline (content-scrape.js lines 226-309) -/

/-- `new Set(urls)` iteration order: first occurrence of every value, in
insertion order; `seen` is the set of already-inserted values. -/
def dedupAux (seen : List String) : List String → List String
  | [] => []
  | u :: rest =>
    if u ∈ seen then dedupAux seen rest
    else u :: dedupAux (u :: seen) rest

/-- `Array.from(new Set(urls)).filter(Boolean)` (content-scrape.js line 239):
deduplicate by exact string equality keeping first occurrences, then drop
empty strings. -/
def dedupUrls (urls : List String) : List String :=
  (dedupAux [] urls).filter (fun u => u != "")

/-- One output row.  A successful fetch+extract yields a full record; the
`catch` at lines 289-293 yields `{ url, error: err.message }`, with every
content field absent; `urlOnly` is the `{ url: u }` fallback of line 301. -/
inductive Row where
  | ok (record : PageRecord)
  | failed (url : String) (error : String)
  | urlOnly (url : String)
  deriving Repr, DecidableEq

/-- The `url` property every row shape carries. -/
def rowUrl : Row → String
  | .ok r => r.url
  | .failed u _ => u
  | .urlOnly u => u

/-- One dispatched task (content-scrape.js lines 282-295): fetch the page
and extract, or catch the fetch error into a degraded row.  A fetch outcome
is `.ok` with the parsed page or `.error` with the error message (network
failure, timeout, or non-2xx/3xx status, per `fetchHtml`'s
`validateStatus`). -/
def step (fetch : String → Except String Node) (url : String) : Row :=
  match fetch url with
  | .ok doc => Row.ok (extractPageData doc url)
  | .error e => Row.failed url e

/-- The rows of a run in the canonical completion order (one per deduplicated
URL). -/
def completedRows (fetch : String → Except String Node) (urls : List String) : List Row :=
  (dedupUrls urls).map (step fetch)

/-- `new Map(entries).get(k)`: the value of the last `set` for the key. -/
def jsMapGet (entries : List (String × Row)) (k : String) : Option Row :=
  ((entries.filter (fun p => p.1 == k)).getLast?).map (fun p => p.2)

/-- The re-projection at content-scrape.js lines 299-301: key the collected
rows by URL and map the (deduplicated) input list over the map, with the
`|| { url: u }` fallback for a missing key. -/
def orderRows (urls : List String) (rows : List Row) : List Row :=
  (dedupUrls urls).map
    (fun u => (jsMapGet (rows.map (fun r => (rowUrl r, r))) u).getD (Row.urlOnly u))

/-- A whole URL-list run with the canonical completion order. -/
def pipelineRows (fetch : String → Except String Node) (urls : List String) : List Row :=
  orderRows urls (completedRows fetch urls)

/-- Sitemap-mode `main` (lines 230-231, 239, 299-303): resolve the sitemap —
a resolution error aborts the run before any row exists — then run the
pipeline. -/
def runSitemapMode (doc : SitemapDoc) (fetch : String → Except String Node) :
    Except String (List Row) :=
  match getUrlsFromSitemap doc with
  | .error e => .error e
  | .ok urls => .ok (pipelineRows fetch urls)

/-- File-mode `main` (lines 232-233, 239, 299-303). -/
def runFileMode (raw : String) (fetch : String → Except String Node) : List Row :=
  pipelineRows fetch (getUrlsFromFile raw)

/-! ## Pipeline lemmas -/

theorem mem_dedupAux {u : String} :
    ∀ (l seen : List String), u ∈ dedupAux seen l ↔ u ∈ l ∧ u ∉ seen := by
  intro l
  induction l with
  | nil => intro seen; simp [dedupAux]
  | cons v rest ih =>
    intro seen
    by_cases hv : v ∈ seen
    · simp only [dedupAux, if_pos hv, ih]
      constructor
      · rintro ⟨h1, h2⟩
        exact ⟨List.mem_cons_of_mem _ h1, h2⟩
      · rintro ⟨h1, h2⟩
        rcases List.mem_cons.mp h1 with rfl | h1
        · exact absurd hv h2
        · exact ⟨h1, h2⟩
    · simp only [dedupAux, if_neg hv, List.mem_cons, ih]
      constructor
      · rintro (rfl | ⟨h1, h2⟩)
        · exact ⟨Or.inl rfl, hv⟩
        · exact ⟨Or.inr h1, fun hs => h2 (Or.inr hs)⟩
      · rintro ⟨rfl | h1, h2⟩
        · exact Or.inl rfl
        · by_cases huv : u = v
          · exact Or.inl huv
          · exact Or.inr ⟨h1, fun hs => hs.elim huv h2⟩

theorem nodup_dedupAux : ∀ (l seen : List String), (dedupAux seen l).Nodup := by
  intro l
  induction l with
  | nil => intro seen; simp [dedupAux]
  | cons v rest ih =>
    intro seen
    by_cases hv : v ∈ seen
    · simpa [dedupAux, if_pos hv] using ih seen
    · simp only [dedupAux, if_neg hv]
      refine List.Nodup.cons ?_ (ih (v :: seen))
      intro hmem
      exact ((mem_dedupAux rest (v :: seen)).mp hmem).2 (List.mem_cons_self v seen)

theorem dedupUrls_nodup (urls : List String) : (dedupUrls urls).Nodup :=
  (nodup_dedupAux urls []).filter _

theorem mem_dedupUrls {u : String} {urls : List String} :
    u ∈ dedupUrls urls ↔ u ∈ urls ∧ u ≠ "" := by
  unfold dedupUrls
  rw [List.mem_filter, mem_dedupAux]
  simp [bne_iff_ne]

/-- `Array.from(new Set(urls))` lists first occurrences in first-seen order:
the set-based deduplication agrees with a left fold that appends each value
not yet appended. -/
theorem dedupAux_eq_foldl :
    ∀ (l acc seen : List String), (∀ x, x ∈ acc ↔ x ∈ seen) →
      l.foldl (fun acc u => if u ∈ acc then acc else acc ++ [u]) acc
        = acc ++ dedupAux seen l := by
  intro l
  induction l with
  | nil => intro acc seen _; simp [dedupAux]
  | cons v rest ih =>
    intro acc seen hiff
    by_cases hv : v ∈ seen
    · rw [List.foldl_cons, if_pos ((hiff v).mpr hv)]
      simp only [dedupAux, if_pos hv]
      exact ih acc seen hiff
    · rw [List.foldl_cons, if_neg (fun h => hv ((hiff v).mp h))]
      simp only [dedupAux, if_neg hv]
      rw [ih (acc ++ [v]) (v :: seen) (by
        intro x
        simp only [List.mem_append, List.mem_singleton, List.mem_cons, hiff x]
        tauto)]
      simp

/-- Every row shape carries the URL of the task that produced it. -/
theorem rowUrl_step (fetch : String → Except String Node) (u : String) :
    rowUrl (step fetch u) = u := by
  unfold step
  cases fetch u with
  | ok doc => simp [rowUrl, extractPageData]
  | error e => simp [rowUrl]

theorem filter_pairs_nil {u : String} (f : String → Row) :
    ∀ (l : List String), u ∉ l →
      (l.map (fun v => (v, f v))).filter (fun p => p.1 == u) = [] := by
  intro l
  induction l with
  | nil => intro _; rfl
  | cons v rest ih =>
    intro hu
    have hvu : ¬(v == u) = true := by
      simp only [beq_iff_eq]
      rintro rfl
      exact hu (List.mem_cons_self v rest)
    simp only [List.map_cons, List.filter_cons]
    rw [if_neg hvu]
    exact ih (fun h => hu (List.mem_cons_of_mem _ h))

theorem filter_pairs_eq {u : String} (f : String → Row) :
    ∀ (l : List String), l.Nodup → u ∈ l →
      (l.map (fun v => (v, f v))).filter (fun p => p.1 == u) = [(u, f u)] := by
  intro l
  induction l with
  | nil => intro _ h; cases h
  | cons v rest ih =>
    intro hnd hu
    rcases List.mem_cons.mp hu with rfl | hu'
    · simp only [List.map_cons, List.filter_cons, beq_self_eq_true, if_pos]
      rw [filter_pairs_nil f rest (List.nodup_cons.mp hnd).1]
    · have hvu : ¬(v == u) = true := by
        simp only [beq_iff_eq]
        rintro rfl
        exact (List.nodup_cons.mp hnd).1 hu'
      simp only [List.map_cons, List.filter_cons]
      rw [if_neg hvu]
      exact ih (List.nodup_cons.mp hnd).2 hu'

/-- The re-projection step is completion-order independent: any permutation
of the per-URL results reorders to the canonical row list. -/
theorem orderRows_eq (urls : List String) (fetch : String → Except String Node)
    (rows : List Row) (h : rows.Perm (completedRows fetch urls)) :
    orderRows urls rows = completedRows fetch urls := by
  unfold orderRows completedRows
  apply List.map_congr_left
  intro u hu
  have hmap : (completedRows fetch urls).map (fun r => (rowUrl r, r))
      = (dedupUrls urls).map (fun v => (v, step fetch v)) := by
    unfold completedRows
    rw [List.map_map]
    exact List.map_congr_left (fun v _ => by simp [Function.comp, rowUrl_step])
  have hperm : ((rows.map (fun r => (rowUrl r, r))).filter (fun p => p.1 == u)).Perm
      ([(u, step fetch u)]) := by
    have h1 := (h.map (fun r => (rowUrl r, r))).filter (fun p => p.1 == u)
    rw [hmap, filter_pairs_eq (step fetch) (dedupUrls urls) (dedupUrls_nodup urls) hu] at h1
    exact h1
  have hsing := List.perm_singleton.mp hperm
  simp [jsMapGet, hsing]

theorem pipelineRows_eq (fetch : String → Except String Node) (urls : List String) :
    pipelineRows fetch urls = completedRows fetch urls :=
  orderRows_eq urls fetch _ (List.Perm.refl _)

/-! ## Tiles lemmas -/

/-- The guarded `.each` accumulation equals "filter out the empty-ish
candidates, keep the first three". -/
theorem tilesLoop_go (u : String) :
    ∀ (items : List Node) (acc : List Tile), acc.length ≤ 3 →
      items.foldl
        (fun acc el =>
          if acc.length ≥ 3 then acc
          else
            let t := mkTile u el
            if tileNonEmpty t then acc ++ [t] else acc)
        acc
      = (acc ++ (items.map (mkTile u)).filter tileNonEmpty).take 3 := by
  intro items
  induction items with
  | nil =>
    intro acc hacc
    simp [List.take_of_length_le hacc]
  | cons el rest ih =>
    intro acc hacc
    rw [List.foldl_cons]
    by_cases hge : acc.length ≥ 3
    · have h3 : acc.length = 3 := le_antisymm hacc hge
      rw [if_pos hge, ih acc hacc]
      rw [List.take_append_eq_append_take, List.take_append_eq_append_take]
      rw [List.take_of_length_le (le_of_eq h3), h3]
      simp
    · rw [if_neg hge]
      simp only [List.map_cons, List.filter_cons]
      by_cases hne : tileNonEmpty (mkTile u el)
      · rw [if_pos hne, if_pos hne, ih (acc ++ [mkTile u el]) (by
          simp only [List.length_append, List.length_singleton]
          omega)]
        rw [List.append_assoc]
        simp
      · rw [if_neg hne, if_neg hne]
        exact ih acc hacc

theorem tilesLoop_eq (u : String) (items : List Node) :
    tilesLoop u items = ((items.map (mkTile u)).filter tileNonEmpty).take 3 := by
  unfold tilesLoop
  rw [tilesLoop_go u items [] (by simp)]
  simp

theorem tilesOf_eq (root : Node) (u : String) :
    tilesOf root u
      = padTiles ((((tileItems root).map (mkTile u)).filter tileNonEmpty).take 3) := by
  unfold tilesOf
  rw [tilesLoop_eq]

theorem padTiles_length (ts : List Tile) (h : ts.length ≤ 3) :
    (padTiles ts).length = 3 := by
  simp only [padTiles, List.length_append, List.length_replicate]
  omega

theorem tilesOf_length (root : Node) (u : String) : (tilesOf root u).length = 3 := by
  rw [tilesOf_eq]
  exact padTiles_length _ (le_trans (List.length_take_le _ _) (by omega))

/-- Slots beyond the collected tiles are the empty placeholder. -/
theorem tileAt_pad_empty (ts : List Tile) (i : Nat) (hi : ts.length ≤ i) (h3 : i < 3) :
    tileAt (padTiles ts) i = emptyTile := by
  unfold tileAt padTiles
  rw [List.get?_eq_getElem?, List.getElem?_append_right hi, List.getElem?_replicate]
  rw [if_pos (by omega)]
  rfl

/-! ## Text-normalisation lemmas -/

theorem collapseWsAux_false_cons_ws {c : Char} (cs : List Char) (hc : isJsWs c = true) :
    collapseWsAux false (c :: cs) = ' ' :: collapseWsAux true cs := by
  simp [collapseWsAux, hc]

theorem collapseWsAux_true_cons_ws {c : Char} (cs : List Char) (hc : isJsWs c = true) :
    collapseWsAux true (c :: cs) = collapseWsAux true cs := by
  simp [collapseWsAux, hc]

theorem collapseWsAux_cons_not_ws {c : Char} (b : Bool) (cs : List Char)
    (hc : isJsWs c = false) :
    collapseWsAux b (c :: cs) = c :: collapseWsAux false cs := by
  simp [collapseWsAux, hc]

theorem wordsAuxBy_cons_ws (p : Char → Bool) (acc : List Char) (c : Char) (cs : List Char)
    (hc : p c = true) :
    wordsAuxBy p acc (c :: cs)
      = if acc = [] then wordsAuxBy p [] cs else acc.reverse :: wordsAuxBy p [] cs := by
  simp [wordsAuxBy, hc]

theorem wordsAuxBy_cons_not_ws {p : Char → Bool} {c : Char} (acc : List Char) (cs : List Char)
    (hc : p c = false) :
    wordsAuxBy p acc (c :: cs) = wordsAuxBy p (c :: acc) cs := by
  simp [wordsAuxBy, hc]

/-- Every character the collapse step emits is the ASCII space or a
non-whitespace character of the input. -/
theorem mem_collapseWsAux {c : Char} :
    ∀ (l : List Char) (b : Bool), c ∈ collapseWsAux b l → c = ' ' ∨ isJsWs c = false := by
  intro l
  induction l with
  | nil => intro b h; simp [collapseWsAux] at h
  | cons d cs ih =>
    intro b h
    by_cases hd : isJsWs d
    · cases b with
      | true =>
        rw [collapseWsAux_true_cons_ws cs hd] at h
        exact ih true h
      | false =>
        rw [collapseWsAux_false_cons_ws cs hd] at h
        rcases List.mem_cons.mp h with rfl | h2
        · exact Or.inl rfl
        · exact ih true h2
    · rw [collapseWsAux_cons_not_ws b cs (Bool.not_eq_true _ ▸ eq_false_of_ne_true hd)] at h
      rcases List.mem_cons.mp h with rfl | h2
      · exact Or.inr (eq_false_of_ne_true hd)
      · exact ih false h2

/-- In whitespace-pending state the collapse step never emits a leading
whitespace character. -/
theorem head?_collapseWsAux_true {c : Char} :
    ∀ l : List Char, (collapseWsAux true l).head? = some c → isJsWs c = false := by
  intro l
  induction l with
  | nil => intro h; simp [collapseWsAux] at h
  | cons d cs ih =>
    intro h
    by_cases hd : isJsWs d
    · rw [collapseWsAux_true_cons_ws cs hd] at h
      exact ih h
    · rw [collapseWsAux_cons_not_ws true cs (eq_false_of_ne_true hd)] at h
      simp only [List.head?_cons, Option.some.injEq] at h
      subst h
      exact eq_false_of_ne_true hd

/-- The collapse step never emits two adjacent whitespace characters. -/
theorem chain'_collapseWsAux :
    ∀ (l : List Char) (b : Bool),
      List.Chain' (fun a c => ¬(isJsWs a = true ∧ isJsWs c = true)) (collapseWsAux b l) := by
  intro l
  induction l with
  | nil => intro b; simp [collapseWsAux]
  | cons d cs ih =>
    intro b
    by_cases hd : isJsWs d
    · cases b with
      | true =>
        rw [collapseWsAux_true_cons_ws cs hd]
        exact ih true
      | false =>
        rw [collapseWsAux_false_cons_ws cs hd]
        rw [List.chain'_cons']
        refine ⟨?_, ih true⟩
        intro y hy
        have hy' : isJsWs y = false :=
          head?_collapseWsAux_true cs (Option.mem_def.mp hy)
        simp [hy']
    · rw [collapseWsAux_cons_not_ws b cs (eq_false_of_ne_true hd)]
      rw [List.chain'_cons']
      refine ⟨?_, ih false⟩
      intro y _
      simp [eq_false_of_ne_true hd]

/-- Replacing no-break spaces is the identity on collapse output (the no-break
space is itself whitespace, so it was already collapsed away). -/
theorem replaceNbsp_id {l : List Char} (h : ∀ c ∈ l, c = ' ' ∨ isJsWs c = false) :
    replaceNbsp l = l := by
  unfold replaceNbsp
  have hcongr : ∀ c ∈ l, (if c.toNat = 0xA0 then ' ' else c) = c := by
    intro c hc
    rcases h c hc with rfl | hws
    · rw [if_neg (by decide)]
    · rw [if_neg]
      intro hna
      have : isJsWs c = true := by simp [isJsWs, hna]
      rw [this] at hws
      cases hws
  rw [List.map_congr_left hcongr]
  simp

theorem prefix_dropTrailingWs : ∀ l : List Char, dropTrailingWs l <+: l := by
  intro l
  induction l with
  | nil => simp [dropTrailingWs]
  | cons c cs ih =>
    cases hdt : dropTrailingWs cs with
    | nil =>
      by_cases hc : isJsWs c
      · simp only [dropTrailingWs, hdt, if_pos hc]
        exact List.nil_prefix
      · simp only [dropTrailingWs, hdt, if_neg hc]
        exact ⟨cs, rfl⟩
    | cons d ds =>
      simp only [dropTrailingWs, hdt]
      rw [hdt] at ih
      obtain ⟨t, ht⟩ := ih
      exact ⟨t, by rw [List.cons_append, ht]⟩

theorem getLast?_dropTrailingWs {c : Char} :
    ∀ l : List Char, (dropTrailingWs l).getLast? = some c → isJsWs c = false := by
  intro l
  induction l with
  | nil => intro h; simp [dropTrailingWs] at h
  | cons d cs ih =>
    intro h
    cases hdt : dropTrailingWs cs with
    | nil =>
      simp only [dropTrailingWs, hdt] at h
      by_cases hd : isJsWs d
      · rw [if_pos hd] at h
        simp at h
      · rw [if_neg hd] at h
        simp only [List.getLast?_singleton, Option.some.injEq] at h
        subst h
        exact eq_false_of_ne_true hd
    | cons e es =>
      simp only [dropTrailingWs, hdt] at h
      rw [List.getLast?_cons_cons] at h
      rw [← hdt] at h
      exact ih h

theorem head?_dropWhile_ws {c : Char} :
    ∀ l : List Char, (l.dropWhile isJsWs).head? = some c → isJsWs c = false := by
  intro l
  induction l with
  | nil => intro h; simp at h
  | cons d cs ih =>
    intro h
    rw [List.dropWhile_cons] at h
    by_cases hd : isJsWs d
    · rw [if_pos hd] at h
      exact ih h
    · rw [if_neg hd] at h
      simp only [List.head?_cons, Option.some.injEq] at h
      subst h
      exact eq_false_of_ne_true hd

theorem prefix_transfer_head? {α : Type} {l₁ l₂ : List α} {c : α} (h : l₁ <+: l₂)
    (hh : l₁.head? = some c) : l₂.head? = some c := by
  obtain ⟨t, rfl⟩ := h
  cases l₁ with
  | nil => simp at hh
  | cons a as => simpa using hh

/-- Collapsing whitespace runs does not change the word decomposition. -/
theorem wordsAuxBy_collapse :
    ∀ l : List Char,
      (∀ acc, wordsAuxBy isJsWs acc (collapseWsAux false l) = wordsAuxBy isJsWs acc l)
        ∧ wordsAuxBy isJsWs [] (collapseWsAux true l) = wordsAuxBy isJsWs [] l := by
  intro l
  induction l with
  | nil => exact ⟨fun _ => rfl, rfl⟩
  | cons c cs ih =>
    by_cases hc : isJsWs c
    · constructor
      · intro acc
        rw [collapseWsAux_false_cons_ws cs hc,
          wordsAuxBy_cons_ws isJsWs acc ' ' (collapseWsAux true cs) (by decide),
          wordsAuxBy_cons_ws isJsWs acc c cs hc, ih.2]
      · rw [collapseWsAux_true_cons_ws cs hc, ih.2,
          wordsAuxBy_cons_ws isJsWs [] c cs hc]
        simp
    · have hc' : isJsWs c = false := eq_false_of_ne_true hc
      constructor
      · intro acc
        rw [collapseWsAux_cons_not_ws false cs hc',
          wordsAuxBy_cons_not_ws acc (collapseWsAux false cs) hc',
          wordsAuxBy_cons_not_ws acc cs hc']
        exact ih.1 (c :: acc)
      · rw [collapseWsAux_cons_not_ws true cs hc',
          wordsAuxBy_cons_not_ws [] (collapseWsAux false cs) hc',
          wordsAuxBy_cons_not_ws [] cs hc']
        exact ih.1 [c]

/-- Dropping leading whitespace does not change the word decomposition. -/
theorem wordsAuxBy_dropWhile :
    ∀ l : List Char, wordsAuxBy isJsWs [] (l.dropWhile isJsWs) = wordsAuxBy isJsWs [] l := by
  intro l
  induction l with
  | nil => rfl
  | cons c cs ih =>
    rw [List.dropWhile_cons]
    by_cases hc : isJsWs c
    · rw [if_pos hc, ih, wordsAuxBy_cons_ws isJsWs [] c cs hc]
      simp
    · rw [if_neg hc]

/-- Dropping trailing whitespace does not change the word decomposition. -/
theorem wordsAuxBy_dropTrailingWs :
    ∀ (l : List Char) (acc : List Char),
      wordsAuxBy isJsWs acc (dropTrailingWs l) = wordsAuxBy isJsWs acc l := by
  intro l
  induction l with
  | nil => intro _; rfl
  | cons c cs ih =>
    intro acc
    cases hdt : dropTrailingWs cs with
    | nil =>
      by_cases hc : isJsWs c
      · simp only [dropTrailingWs, hdt, if_pos hc]
        rw [wordsAuxBy_cons_ws isJsWs acc c cs hc]
        have h0 : wordsAuxBy isJsWs [] cs = [] := by
          have h1 := ih []
          rw [hdt] at h1
          exact h1.symm
        rw [h0]
        by_cases hacc : acc = []
        · simp [wordsAuxBy, hacc]
        · simp [wordsAuxBy, hacc]
      · have hc' : isJsWs c = false := eq_false_of_ne_true hc
        simp only [dropTrailingWs, hdt, if_neg hc]
        rw [wordsAuxBy_cons_not_ws acc ([] : List Char) hc',
          wordsAuxBy_cons_not_ws acc cs hc']
        have h1 := ih (c :: acc)
        rw [hdt] at h1
        exact h1
    | cons d ds =>
      simp only [dropTrailingWs, hdt]
      by_cases hc : isJsWs c
      · rw [wordsAuxBy_cons_ws isJsWs acc c (d :: ds) hc,
          wordsAuxBy_cons_ws isJsWs acc c cs hc]
        have h1 := ih []
        rw [hdt] at h1
        rw [h1]
      · have hc' : isJsWs c = false := eq_false_of_ne_true hc
        rw [wordsAuxBy_cons_not_ws acc (d :: ds) hc',
          wordsAuxBy_cons_not_ws acc cs hc']
        have h1 := ih (c :: acc)
        rw [hdt] at h1
        exact h1

/-- `cleanText` preserves the whitespace-separated word decomposition of its
input. -/
theorem jsTokens_cleanText (s : String) : jsTokens (cleanText s).data = jsTokens s.data := by
  unfold cleanText
  by_cases hs : s = ""
  · rw [if_pos hs, hs]
  · rw [if_neg hs]
    show jsTokens (trimJs (replaceNbsp (collapseWsAux false s.data))) = jsTokens s.data
    rw [replaceNbsp_id (fun c hc => mem_collapseWsAux s.data false hc)]
    unfold jsTokens trimJs
    rw [wordsAuxBy_dropTrailingWs, wordsAuxBy_dropWhile]
    exact (wordsAuxBy_collapse s.data).1 []

/-! ## URL-resolution lemmas -/

theorem stripPrefixL_append : ∀ (p t : List Char), stripPrefixL p (p ++ t) = some t := by
  intro p
  induction p with
  | nil => intro t; rfl
  | cons c cs ih => intro t; simp [stripPrefixL, ih]

theorem startsHttp_of_parse {s : String} {u : UrlParts} (h : parseHttpUrl s = some u) :
    startsHttp s = true := by
  unfold startsHttp
  cases h1 : stripPrefixL "https://".data s.data with
  | some r => simp [h1]
  | none =>
    cases h2 : stripPrefixL "http://".data s.data with
    | some r => simp [h1, h2]
    | none =>
      simp only [parseHttpUrl, h1, h2] at h
      exact Option.noConfusion h

theorem scheme_of_parse {s : String} {u : UrlParts} (h : parseHttpUrl s = some u) :
    u.scheme = "https" ∨ u.scheme = "http" := by
  cases h1 : stripPrefixL "https://".data s.data with
  | some r =>
    simp only [parseHttpUrl, h1] at h
    split at h
    · cases h; exact Or.inl rfl
    · cases h
  | none =>
    cases h2 : stripPrefixL "http://".data s.data with
    | some r =>
      simp only [parseHttpUrl, h1, h2] at h
      split at h
      · cases h; exact Or.inr rfl
      · cases h
    | none =>
      simp only [parseHttpUrl, h1, h2] at h
      exact Option.noConfusion h

theorem startsHttp_append {sch : String} (x : String) (h : sch = "https" ∨ sch = "http") :
    startsHttp (sch ++ "://" ++ x) = true := by
  unfold startsHttp
  rcases h with rfl | rfl
  · have hdata : ("https" ++ "://" ++ x).data = "https://".data ++ x.data := by
      rw [String.data_append, String.data_append]
      rw [show "https".data ++ "://".data = "https://".data from rfl]
    rw [hdata, stripPrefixL_append]
    simp
  · have hdata : ("http" ++ "://" ++ x).data = "http://".data ++ x.data := by
      rw [String.data_append, String.data_append]
      rw [show "http".data ++ "://".data = "http://".data from rfl]
    rw [hdata, stripPrefixL_append]
    simp

/-- Every successful output of the restricted resolver is in absolute
http(s) form. -/
theorem startsHttp_urlResolve {r p u : String} (h : urlResolve r p = some u) :
    startsHttp u = true := by
  cases h1 : parseHttpUrl r with
  | some w =>
    simp only [urlResolve, h1] at h
    cases h
    exact startsHttp_of_parse h1
  | none =>
    cases h2 : parseHttpUrl p with
    | none =>
      simp only [urlResolve, h1, h2] at h
      exact Option.noConfusion h
    | some b =>
      simp only [urlResolve, h1, h2] at h
      split at h
      · cases h
      · split at h
        · cases h
          rw [String.append_assoc]
          exact startsHttp_append _ (scheme_of_parse h2)
        · cases h
      · cases h

/-! ## cleanText wrap-up lemmas -/

theorem data_mk (l : List Char) : (String.mk l).data = l := rfl

theorem mem_cleanText {s : String} {c : Char} (hc : c ∈ (cleanText s).data) :
    c = ' ' ∨ isJsWs c = false := by
  by_cases hs : s = ""
  · rw [hs] at hc
    simp [cleanText] at hc
  · unfold cleanText at hc
    rw [if_neg hs, data_mk] at hc
    have hc2 : c ∈ replaceNbsp (collapseWsAux false s.data) :=
      (List.dropWhile_suffix isJsWs).sublist.subset
        ((prefix_dropTrailingWs _).sublist.subset hc)
    rw [replaceNbsp_id (fun d hd => mem_collapseWsAux _ false hd)] at hc2
    exact mem_collapseWsAux _ false hc2

theorem chain'_cleanText (s : String) :
    List.Chain' (fun a c => ¬(isJsWs a = true ∧ isJsWs c = true)) (cleanText s).data := by
  by_cases hs : s = ""
  · simp [cleanText, hs]
  · unfold cleanText
    rw [if_neg hs, data_mk]
    unfold trimJs
    rw [replaceNbsp_id (fun d hd => mem_collapseWsAux _ false hd)]
    exact List.Chain'.prefix
      ((chain'_collapseWsAux s.data false).suffix (List.dropWhile_suffix isJsWs))
      (prefix_dropTrailingWs _)

theorem head_cleanText {s : String} {c : Char} (h : (cleanText s).data.head? = some c) :
    isJsWs c = false := by
  by_cases hs : s = ""
  · rw [hs] at h
    simp [cleanText] at h
  · unfold cleanText at h
    rw [if_neg hs, data_mk] at h
    unfold trimJs at h
    exact head?_dropWhile_ws _ (prefix_transfer_head? (prefix_dropTrailingWs _) h)

theorem last_cleanText {s : String} {c : Char} (h : (cleanText s).data.getLast? = some c) :
    isJsWs c = false := by
  by_cases hs : s = ""
  · rw [hs] at h
    simp [cleanText] at h
  · unfold cleanText at h
    rw [if_neg hs, data_mk] at h
    unfold trimJs at h
    exact getLast?_dropTrailingWs _ h

/-! ## Concrete example inputs -/

/-- A minimal page whose extraction yields the all-empty record. -/
def egEmptyPage : Node :=
  Node.elem "html" [] [Node.elem "body" [] []]

/-- The spec's banner scenario: a banner wrapper with an inline
`background-image` style and no `img` tag. -/
def egBannerDoc : Node :=
  Node.elem "html" []
    [Node.elem "body" []
      [Node.elem "div"
        [("class", "banner"), ("style", "background-image:url(\x27/img/banner.jpg\x27)")]
        []]]

/-- A video wrapper whose first iframe has a present-but-empty `src`
attribute, followed by an element carrying `data-src`. -/
def egVideoDoc : Node :=
  Node.elem "html" []
    [Node.elem "body" []
      [Node.elem "div" [("class", "article-video")]
        [Node.elem "iframe" [("src", "")] [],
         Node.elem "div" [("data-src", "https://v.example/embed")] []]]]

/-- A related-articles wrapper with one empty tile candidate and two
content-bearing ones. -/
def egTilesDoc : Node :=
  Node.elem "html" []
    [Node.elem "body" []
      [Node.elem "div" [("class", "related-articles")]
        [Node.elem "div" [("class", "tile")] [],
         Node.elem "div" [("class", "tile")]
           [Node.elem "h3" [] [Node.text "T1"],
            Node.elem "p" [] [Node.text "D1"],
            Node.elem "a" [("href", "/t1")] [Node.text "Read"]],
         Node.elem "div" [("class", "card")]
           [Node.elem "h4" [] [Node.text "T2"]]]]]

/-- A fetch oracle under which one URL times out and every other URL
succeeds with the minimal page. -/
def egFetch : String → Except String Node := fun u =>
  if u = "https://a.com/bad" then Except.error "timeout of 20000ms exceeded"
  else Except.ok egEmptyPage

/-- Raw text of a URL-list file: a duplicated URL, a comment, a blank line,
and three near-duplicates of the first URL (case, trailing slash,
fragment). -/
def egUrlsFileRaw : String :=
  "https://a.com/x\nhttps://a.com/x\nhttps://A.com/x\n# note\n\nhttps://a.com/x/\nhttps://a.com/x#f"

/-- A sitemap index over two page-list children, with a missing and an empty
location entry and a URL duplicated across children. -/
def egSitemap : SitemapDoc :=
  SitemapDoc.sitemapindex
    [SitemapDoc.urlset [some "https://a.com/1", none, some ""],
     SitemapDoc.urlset [some "https://a.com/2", some "https://a.com/1"]]

/-! ## Claims -/

/-- **C5.** For every input string, `cleanText` collapses every run of
whitespace characters (including the no-break space U+00A0) to a single ASCII
space and trims leading/trailing whitespace.  Formalised as: every output
character is the ASCII space or a non-whitespace character; no two adjacent
output characters are whitespace; the output neither starts nor ends with a
whitespace character; the whitespace-separated word decomposition of the
input is preserved; and the spec example `"Hello\n\n  World\u00A0!"`
normalises to `"Hello World !"`. -/
theorem claim_C5_cleanText_normalizes :
    (∀ (s : String), ∀ c ∈ (cleanText s).data, c = ' ' ∨ isJsWs c = false) ∧
    (∀ s : String,
      List.Chain' (fun a c => ¬(isJsWs a = true ∧ isJsWs c = true)) (cleanText s).data) ∧
    (∀ (s : String) (c : Char), (cleanText s).data.head? = some c → isJsWs c = false) ∧
    (∀ (s : String) (c : Char), (cleanText s).data.getLast? = some c → isJsWs c = false) ∧
    (∀ s : String, jsTokens (cleanText s).data = jsTokens s.data) ∧
    cleanText "Hello\n\n  World\u00A0!" = "Hello World !" :=
  ⟨fun _ _ hc => mem_cleanText hc,
   chain'_cleanText,
   fun _ _ h => head_cleanText h,
   fun _ _ h => last_cleanText h,
   jsTokens_cleanText,
   by decide⟩

theorem claim_C5_witness :
    ('H' = ' ' ∨ isJsWs 'H' = false) ∧ isJsWs 'H' = false ∧ isJsWs 'o' = false ∧
      jsTokens (cleanText "Hi  yo").data = jsTokens "Hi  yo".data :=
  ⟨claim_C5_cleanText_normalizes.1 "Hi" 'H' (by decide),
   claim_C5_cleanText_normalizes.2.2.1 "Hi" 'H' (by decide),
   claim_C5_cleanText_normalizes.2.2.2.1 "Hi  yo" 'o' (by decide),
   claim_C5_cleanText_normalizes.2.2.2.2.1 "Hi  yo"⟩

theorem urlResolve_empty (p : String) : urlResolve "" p = none := by
  have h0 : parseHttpUrl "" = none := by decide
  cases h2 : parseHttpUrl p with
  | none => simp only [urlResolve, h0, h2]
  | some b => simp only [urlResolve, h0, h2]

/-- **C6.** For every extracted link target, `absolutizeUrl` yields the
absolute resolved URL when the value resolves against the page URL, passes
the value through unchanged when resolution fails, and maps an empty value to
the empty string; in particular page `https://a.com/p` with `/x.png` yields
`https://a.com/x.png`. -/
theorem claim_C6_absolutize :
    (∀ p : String, absolutizeUrl "" p = "") ∧
    (∀ r p u : String, urlResolve r p = some u →
        absolutizeUrl r p = u ∧ startsHttp u = true) ∧
    (∀ r p : String, urlResolve r p = none → absolutizeUrl r p = r) ∧
    absolutizeUrl "/x.png" "https://a.com/p" = "https://a.com/x.png" := by
  refine ⟨fun _ => rfl, ?_, ?_, by decide⟩
  · intro r p u h
    have hr : r ≠ "" := by
      rintro rfl
      rw [urlResolve_empty] at h
      exact Option.noConfusion h
    refine ⟨?_, startsHttp_urlResolve h⟩
    unfold absolutizeUrl
    rw [if_neg hr, h]
  · intro r p h
    by_cases hr : r = ""
    · subst hr
      rfl
    · unfold absolutizeUrl
      rw [if_neg hr, h]

theorem claim_C6_witness :
    (absolutizeUrl "/x.png" "https://a.com/p" = "https://a.com/x.png" ∧
      startsHttp "https://a.com/x.png" = true) ∧
    absolutizeUrl "::nonsense" "not-a-base" = "::nonsense" :=
  ⟨claim_C6_absolutize.2.1 "/x.png" "https://a.com/p" "https://a.com/x.png" (by decide),
   claim_C6_absolutize.2.2.1 "::nonsense" "not-a-base" (by decide)⟩

theorem findAllIn_none (p : Node → Bool) : findAllIn none p = [] := rfl

theorem findFirstIn_none (p : Node → Bool) : findFirstIn none p = none := rfl

theorem attrIn_none (k : String) : attrIn none k = none := rfl

theorem textIn_none : textIn none = "" := rfl

theorem childrenElems_none : childrenElems none = [] := rfl

theorem matchBgImage_empty : matchBgImage "" = none := rfl

theorem cleanText_empty : cleanText "" = "" := rfl

theorem absolutizeUrl_empty (p : String) : absolutizeUrl "" p = "" := rfl

/-- **C3.** `extractPageData` is total (it is a plain function of the parsed
tree — totality is by construction in this embedding) and lenient: whenever a
structural element is missing — a whole wrapper, or a heading, paragraph,
button, image, iframe, anchor, or attribute inside a present wrapper — the
corresponding output field is the empty string rather than an error. -/
theorem claim_C3_extract_lenient :
    ∀ (root : Node) (pageUrl : String),
      (extractPageData root pageUrl).url = pageUrl ∧
      (bannerOf root = none →
        (extractPageData root pageUrl).banner_image = "" ∧
        (extractPageData root pageUrl).banner_title = "" ∧
        (extractPageData root pageUrl).banner_description = "" ∧
        (extractPageData root pageUrl).banner_button_text = "" ∧
        (extractPageData root pageUrl).banner_button_link = "") ∧
      (bannerImgSrc root = "" → matchBgImage (bannerStyle root) = none →
        (extractPageData root pageUrl).banner_image = "") ∧
      (attrIn (bannerOf root) "style" = none → bannerImgSrc root = "" →
        (extractPageData root pageUrl).banner_image = "") ∧
      (findFirstIn (bannerOf root) (tagSel "h1") = none →
        findFirstIn (bannerOf root) (tagSel "h2") = none →
        (extractPageData root pageUrl).banner_title = "") ∧
      (findFirstIn (bannerOf root) (tagSel "p") = none →
        (extractPageData root pageUrl).banner_description = "") ∧
      (bannerBtnOf root = none →
        (extractPageData root pageUrl).banner_button_text = "" ∧
        (extractPageData root pageUrl).banner_button_link = "") ∧
      (attrIn (bannerBtnOf root) "href" = none →
        (extractPageData root pageUrl).banner_button_link = "") ∧
      (selectFirst root mainDescSel = none →
        (extractPageData root pageUrl).main_description = "") ∧
      (videoOf root = none →
        (extractPageData root pageUrl).video_heading = "" ∧
        (extractPageData root pageUrl).video_embed_url = "") ∧
      (findFirstIn (videoOf root) headingSel123 = none →
        (extractPageData root pageUrl).video_heading = "") ∧
      (videoIframeSrc root = "" → videoDataSrc root = "" → videoAHref root = "" →
        (extractPageData root pageUrl).video_embed_url = "") ∧
      (tilesWrapOf root = none →
        (extractPageData root pageUrl).tile1_heading = "" ∧
        (extractPageData root pageUrl).tile1_description = "" ∧
        (extractPageData root pageUrl).tile1_link_title = "" ∧
        (extractPageData root pageUrl).tile1_link_url = "" ∧
        (extractPageData root pageUrl).tile2_heading = "" ∧
        (extractPageData root pageUrl).tile2_description = "" ∧
        (extractPageData root pageUrl).tile2_link_title = "" ∧
        (extractPageData root pageUrl).tile2_link_url = "" ∧
        (extractPageData root pageUrl).tile3_heading = "" ∧
        (extractPageData root pageUrl).tile3_description = "" ∧
        (extractPageData root pageUrl).tile3_link_title = "" ∧
        (extractPageData root pageUrl).tile3_link_url = "") ∧
      (tileItems root = [] →
        (extractPageData root pageUrl).tile1_heading = "" ∧
        (extractPageData root pageUrl).tile1_description = "" ∧
        (extractPageData root pageUrl).tile1_link_title = "" ∧
        (extractPageData root pageUrl).tile1_link_url = "" ∧
        (extractPageData root pageUrl).tile2_heading = "" ∧
        (extractPageData root pageUrl).tile2_description = "" ∧
        (extractPageData root pageUrl).tile2_link_title = "" ∧
        (extractPageData root pageUrl).tile2_link_url = "" ∧
        (extractPageData root pageUrl).tile3_heading = "" ∧
        (extractPageData root pageUrl).tile3_description = "" ∧
        (extractPageData root pageUrl).tile3_link_title = "" ∧
        (extractPageData root pageUrl).tile3_link_url = "") ∧
      (∀ el : Node,
        (findFirstIn (some el) headingSel1234 = none → (mkTile pageUrl el).heading = "") ∧
        (findFirstIn (some el) (tagSel "p") = none → (mkTile pageUrl el).description = "") ∧
        ((findAllIn (some el) (tagSel "a")).filter
            (fun a => (cleanText a.textContent).length > 0) = [] →
          (mkTile pageUrl el).linkTitle = "" ∧ (mkTile pageUrl el).linkUrl = "")) := by
  intro root pageUrl
  refine ⟨rfl, ?_, ?_, ?_, ?_, ?_, ?_, ?_, ?_, ?_, ?_, ?_, ?_, ?_, ?_⟩
  · intro h
    refine ⟨?_, ?_, ?_, ?_, ?_⟩ <;>
      simp [extractPageData, bannerImageOf, bannerImgSrc, bannerStyle, bannerTitleOf,
        bannerDescriptionOf, bannerBtnOf, h, findFirstIn_none, findAllIn_none, attrIn_none,
        textIn_none, jsOrEmpty, jsOrS, matchBgImage_empty, cleanText_empty,
        absolutizeUrl_empty]
  · intro h1 h2
    show bannerImageOf root pageUrl = ""
    unfold bannerImageOf
    rw [if_pos h1, h2]
  · intro hstyle himg
    show bannerImageOf root pageUrl = ""
    unfold bannerImageOf
    rw [if_pos himg]
    have hst : bannerStyle root = "" := by
      unfold bannerStyle
      rw [hstyle]
      rfl
    rw [hst, matchBgImage_empty]
  · intro h1 h2
    show bannerTitleOf root = ""
    unfold bannerTitleOf
    rw [h1, h2]
    rfl
  · intro h
    show bannerDescriptionOf root = ""
    unfold bannerDescriptionOf
    rw [h]
    rfl
  · intro h
    constructor
    · show cleanText (textIn (bannerBtnOf root)) = ""
      rw [h]
      rfl
    · show absolutizeUrl (jsOrEmpty (attrIn (bannerBtnOf root) "href")) pageUrl = ""
      rw [h]
      rfl
  · intro h
    show absolutizeUrl (jsOrEmpty (attrIn (bannerBtnOf root) "href")) pageUrl = ""
    rw [h]
    rfl
  · intro h
    simp [extractPageData, h, textIn_none, cleanText_empty]
  · intro h
    refine ⟨?_, ?_⟩ <;>
      simp [extractPageData, videoEmbedUrlOf, videoIframeSrc, videoDataSrc, videoAHref, h,
        findFirstIn_none, findAllIn_none, attrIn_none, textIn_none, jsOrEmpty, jsOrS,
        cleanText_empty, absolutizeUrl_empty]
  · intro h
    show cleanText (textIn (findFirstIn (videoOf root) headingSel123)) = ""
    rw [h]
    rfl
  · intro h1 h2 h3
    show videoEmbedUrlOf root pageUrl = ""
    unfold videoEmbedUrlOf
    rw [h1, h2, h3]
    rfl
  · intro h
    refine ⟨?_, ?_, ?_, ?_, ?_, ?_, ?_, ?_, ?_, ?_, ?_, ?_⟩ <;>
      simp [extractPageData, tilesOf, tileItems, tilesLoop, padTiles, tileAt, emptyTile,
        childrenElems_none, findAllIn_none, h]
  · intro h
    refine ⟨?_, ?_, ?_, ?_, ?_, ?_, ?_, ?_, ?_, ?_, ?_, ?_⟩ <;>
      simp [extractPageData, tilesOf, tilesLoop, padTiles, tileAt, emptyTile, h]
  · intro el
    refine ⟨?_, ?_, ?_⟩
    · intro h
      show cleanText (textIn (findFirstIn (some el) headingSel1234)) = ""
      rw [h]
      rfl
    · intro h
      show cleanText (textIn (findFirstIn (some el) (tagSel "p"))) = ""
      rw [h]
      rfl
    · intro h
      constructor
      · show cleanText (textIn (((findAllIn (some el) (tagSel "a")).filter
            (fun a => (cleanText a.textContent).length > 0)).head?)) = ""
        rw [h]
        rfl
      · show absolutizeUrl (jsOrEmpty (attrIn (((findAllIn (some el) (tagSel "a")).filter
            (fun a => (cleanText a.textContent).length > 0)).head?) "href")) pageUrl = ""
        rw [h]
        rfl

theorem claim_C3_witness :
    (extractPageData egEmptyPage "https://site.com/p").banner_image = "" ∧
    (extractPageData egBannerDoc "https://site.com/p").banner_title = "" ∧
    (extractPageData egEmptyPage "https://site.com/p").main_description = "" ∧
    (extractPageData egEmptyPage "https://site.com/p").video_embed_url = "" ∧
    (extractPageData egEmptyPage "https://site.com/p").tile1_heading = "" ∧
    (mkTile "https://site.com/p" (Node.elem "div" [] [])).heading = "" := by
  have h1 := claim_C3_extract_lenient egEmptyPage "https://site.com/p"
  have h2 := claim_C3_extract_lenient egBannerDoc "https://site.com/p"
  obtain ⟨-, hbw, -, -, -, -, -, -, hmd, -, -, hvc, htw, -, hmk⟩ := h1
  obtain ⟨-, -, -, -, hti, -, -, -, -, -, -, -, -, -, -⟩ := h2
  exact ⟨(hbw rfl).1, hti rfl rfl, hmd rfl, hvc (by decide) (by decide) (by decide),
    (htw rfl).1, (hmk (Node.elem "div" [] [])).1 rfl⟩

/-- **C4.** For every page, the extractor produces exactly three tile slots:
candidates are iterated in document order, entirely-empty candidates are
skipped, the first three non-empty candidates are kept (the guarded loop
equals take-3-of-filter), missing slots are filled with empty-string
placeholder tiles, and all twelve tile fields of the record are wired to the
three slots. -/
theorem claim_C4_tiles :
    ∀ (root : Node) (pageUrl : String),
      tilesOf root pageUrl
          = padTiles ((((tileItems root).map (mkTile pageUrl)).filter tileNonEmpty).take 3) ∧
      (tilesOf root pageUrl).length = 3 ∧
      (∀ i, (((tileItems root).map (mkTile pageUrl)).filter tileNonEmpty).length ≤ i →
        i < 3 → tileAt (tilesOf root pageUrl) i = emptyTile) ∧
      (extractPageData root pageUrl).tile1_heading = (tileAt (tilesOf root pageUrl) 0).heading ∧
      (extractPageData root pageUrl).tile1_description
        = (tileAt (tilesOf root pageUrl) 0).description ∧
      (extractPageData root pageUrl).tile1_link_title
        = (tileAt (tilesOf root pageUrl) 0).linkTitle ∧
      (extractPageData root pageUrl).tile1_link_url = (tileAt (tilesOf root pageUrl) 0).linkUrl ∧
      (extractPageData root pageUrl).tile2_heading = (tileAt (tilesOf root pageUrl) 1).heading ∧
      (extractPageData root pageUrl).tile2_description
        = (tileAt (tilesOf root pageUrl) 1).description ∧
      (extractPageData root pageUrl).tile2_link_title
        = (tileAt (tilesOf root pageUrl) 1).linkTitle ∧
      (extractPageData root pageUrl).tile2_link_url = (tileAt (tilesOf root pageUrl) 1).linkUrl ∧
      (extractPageData root pageUrl).tile3_heading = (tileAt (tilesOf root pageUrl) 2).heading ∧
      (extractPageData root pageUrl).tile3_description
        = (tileAt (tilesOf root pageUrl) 2).description ∧
      (extractPageData root pageUrl).tile3_link_title
        = (tileAt (tilesOf root pageUrl) 2).linkTitle ∧
      (extractPageData root pageUrl).tile3_link_url
        = (tileAt (tilesOf root pageUrl) 2).linkUrl := by
  intro root pageUrl
  refine ⟨tilesOf_eq root pageUrl, tilesOf_length root pageUrl, ?_,
    rfl, rfl, rfl, rfl, rfl, rfl, rfl, rfl, rfl, rfl, rfl, rfl⟩
  intro i hi h3
  rw [tilesOf_eq]
  refine tileAt_pad_empty _ i (le_trans ?_ hi) h3
  rw [List.length_take]
  exact min_le_right _ _

theorem claim_C4_witness :
    tileAt (tilesOf egTilesDoc "https://site.com/page") 2 = emptyTile ∧
    (tilesOf egTilesDoc "https://site.com/page").length = 3 :=
  ⟨(claim_C4_tiles egTilesDoc "https://site.com/page").2.2.1 2 (by decide) (by decide),
   (claim_C4_tiles egTilesDoc "https://site.com/page").2.1⟩

/-- **C7.** For every page, `banner_image` is the absolutized src of the
first `img` inside the first banner wrapper when that src is truthy;
otherwise it is the (absolutized) URL captured from a
`background-image: url(...)` declaration in the wrapper's inline style, and
empty when the style yields no match; in particular the spec's scenario doc
with `style="background-image:url('/img/banner.jpg')"` and no `img` yields
the absolute `https://site.com/img/banner.jpg`. -/
theorem claim_C7_banner_image :
    (∀ (root : Node) (pageUrl : String),
      (extractPageData root pageUrl).banner_image = bannerImageOf root pageUrl ∧
      (bannerImgSrc root ≠ "" →
        bannerImageOf root pageUrl = absolutizeUrl (bannerImgSrc root) pageUrl) ∧
      (bannerImgSrc root = "" → ∀ v, matchBgImage (bannerStyle root) = some v → v ≠ "" →
        bannerImageOf root pageUrl = absolutizeUrl v pageUrl) ∧
      (bannerImgSrc root = "" → matchBgImage (bannerStyle root) = none →
        bannerImageOf root pageUrl = "")) ∧
    (extractPageData egBannerDoc "https://site.com/page").banner_image
      = "https://site.com/img/banner.jpg" := by
  refine ⟨?_, by decide⟩
  intro root pageUrl
  refine ⟨rfl, ?_, ?_, ?_⟩
  · intro h
    unfold bannerImageOf
    rw [if_neg h]
  · intro h v hv hne
    unfold bannerImageOf
    rw [if_pos h, hv]
    show (if v = "" then "" else absolutizeUrl v pageUrl) = absolutizeUrl v pageUrl
    rw [if_neg hne]
  · intro h hm
    unfold bannerImageOf
    rw [if_pos h, hm]

theorem claim_C7_witness :
    bannerImageOf egBannerDoc "https://site.com/page"
        = absolutizeUrl "/img/banner.jpg" "https://site.com/page" ∧
    bannerImageOf egEmptyPage "https://site.com/page" = "" :=
  ⟨((claim_C7_banner_image.1 egBannerDoc "https://site.com/page").2.2.1 (by decide)
      "/img/banner.jpg" (by decide) (by decide)),
   ((claim_C7_banner_image.1 egEmptyPage "https://site.com/page").2.2.2 (by decide)
      (by decide))⟩

/-- **C8 (counterexample).** The claim reads the first iframe's src as
chosen "if present"; here the first iframe's `src` attribute is present with
value `""`, so the claim predicts `video_embed_url = absolutizeUrl "" url
= ""`, but the code's JavaScript `||` chain treats the empty string as falsy
and falls through to the `data-src` value. -/
theorem claim_C8_counterexample :
    attrIn (findFirstIn (videoOf egVideoDoc) (tagSel "iframe")) "src" = some "" ∧
    absolutizeUrl "" "https://site.com/page" = "" ∧
    (extractPageData egVideoDoc "https://site.com/page").video_embed_url
      = "https://v.example/embed" ∧
    ("https://v.example/embed" : String) ≠ "" := by
  refine ⟨by decide, rfl, by decide, by decide⟩

/-- **C8 (amended).** For every page, `video_embed_url` is chosen by the
precedence: the first iframe's src inside the video wrapper if present and
nonempty, else the first `data-src` attribute value inside the wrapper if
nonempty, else the first anchor's href inside the wrapper (the empty string
when that too is absent or empty); the chosen value is then absolutized
against the page URL. -/
theorem claim_C8_video_precedence :
    ∀ (root : Node) (pageUrl : String),
      (extractPageData root pageUrl).video_embed_url = videoEmbedUrlOf root pageUrl ∧
      videoEmbedUrlOf root pageUrl
        = absolutizeUrl
            (jsOrS (videoIframeSrc root) (jsOrS (videoDataSrc root) (videoAHref root)))
            pageUrl ∧
      (videoIframeSrc root ≠ "" →
        videoEmbedUrlOf root pageUrl = absolutizeUrl (videoIframeSrc root) pageUrl) ∧
      (videoIframeSrc root = "" → videoDataSrc root ≠ "" →
        videoEmbedUrlOf root pageUrl = absolutizeUrl (videoDataSrc root) pageUrl) ∧
      (videoIframeSrc root = "" → videoDataSrc root = "" →
        videoEmbedUrlOf root pageUrl = absolutizeUrl (videoAHref root) pageUrl) ∧
      (videoIframeSrc root = "" → videoDataSrc root = "" → videoAHref root = "" →
        videoEmbedUrlOf root pageUrl = "") := by
  intro root pageUrl
  refine ⟨rfl, rfl, ?_, ?_, ?_, ?_⟩
  · intro h
    unfold videoEmbedUrlOf jsOrS
    rw [if_neg h]
  · intro h1 h2
    unfold videoEmbedUrlOf jsOrS
    rw [if_pos h1, if_neg h2]
  · intro h1 h2
    unfold videoEmbedUrlOf jsOrS
    rw [if_pos h1, if_pos h2]
  · intro h1 h2 h3
    unfold videoEmbedUrlOf jsOrS
    rw [if_pos h1, if_pos h2, h3]
    rfl

theorem claim_C8_witness :
    videoEmbedUrlOf egVideoDoc "https://site.com/page"
        = absolutizeUrl "https://v.example/embed" "https://site.com/page" ∧
    videoEmbedUrlOf egEmptyPage "https://site.com/page" = "" := by
  constructor
  · have h := (claim_C8_video_precedence egVideoDoc "https://site.com/page").2.2.2.1
      (by decide) (by decide)
    rw [h]
    rw [show videoDataSrc egVideoDoc = "https://v.example/embed" from by decide]
  · exact (claim_C8_video_precedence egEmptyPage "https://site.com/page").2.2.2.2.2
      (by decide) (by decide) (by decide)

/-! ## Sitemap lemmas and remaining claims -/

theorem sitemapChildren_ok {cs : List SitemapDoc} {ls : List (List String)}
    (h : List.Forall₂ (fun c l => getUrlsFromSitemap c = Except.ok l) cs ls) :
    sitemapChildren cs = Except.ok ls.flatten := by
  induction h with
  | nil => rfl
  | @cons c l cs2 ls2 hcl _ ih =>
    simp only [sitemapChildren, hcl, ih, List.flatten_cons]

theorem sitemapChildren_error :
    ∀ (pre : List SitemapDoc) (c : SitemapDoc) (post : List SitemapDoc) (e : String),
      (∀ d ∈ pre, ∃ l, getUrlsFromSitemap d = Except.ok l) →
      getUrlsFromSitemap c = Except.error e →
      sitemapChildren (pre ++ c :: post) = Except.error e := by
  intro pre
  induction pre with
  | nil =>
    intro c post e _ hc
    simp only [List.nil_append, sitemapChildren, hc]
  | cons d ds ih =>
    intro c post e hpre hc
    obtain ⟨l, hl⟩ := hpre d (List.mem_cons_self d ds)
    have hrec := ih c post e (fun d2 hd2 => hpre d2 (List.mem_cons_of_mem _ hd2)) hc
    simp only [List.cons_append, sitemapChildren, hl, List.append_eq, hrec]

theorem map_rowUrl_completedRows (fetch : String → Except String Node) (urls : List String) :
    (completedRows fetch urls).map rowUrl = dedupUrls urls := by
  unfold completedRows
  rw [List.map_map]
  have hcongr : (dedupUrls urls).map (rowUrl ∘ step fetch) = (dedupUrls urls).map id :=
    List.map_congr_left (fun v _ => rowUrl_step fetch v)
  rw [hcongr, List.map_id]

/-- **C9.** Sitemap resolution returns the location entries of a page-list
document in document order (dropping absent and empty locations); a
sitemap-of-sitemaps resolves its children recursively and concatenates their
URL lists in document order; a document of neither shape fails with the
malformed-sitemap error, which propagates up through the recursion (past any
earlier successful children) and terminates the run; global deduplication is
applied to the resolved list afterwards. -/
theorem claim_C9_sitemap :
    (∀ entries, getUrlsFromSitemap (SitemapDoc.urlset entries)
        = Except.ok ((entries.filterMap id).filter (fun s => s != ""))) ∧
    (∀ (cs : List SitemapDoc) (ls : List (List String)),
      List.Forall₂ (fun c l => getUrlsFromSitemap c = Except.ok l) cs ls →
      getUrlsFromSitemap (SitemapDoc.sitemapindex cs) = Except.ok ls.flatten) ∧
    getUrlsFromSitemap SitemapDoc.malformed = Except.error malformedSitemapMsg ∧
    (∀ (pre : List SitemapDoc) (c : SitemapDoc) (post : List SitemapDoc) (e : String),
      (∀ d ∈ pre, ∃ l, getUrlsFromSitemap d = Except.ok l) →
      getUrlsFromSitemap c = Except.error e →
      getUrlsFromSitemap (SitemapDoc.sitemapindex (pre ++ c :: post)) = Except.error e) ∧
    (∀ (doc : SitemapDoc) (fetch : String → Except String Node) (e : String),
      getUrlsFromSitemap doc = Except.error e → runSitemapMode doc fetch = Except.error e) ∧
    (∀ (doc : SitemapDoc) (fetch : String → Except String Node) (us : List String),
      getUrlsFromSitemap doc = Except.ok us →
      runSitemapMode doc fetch = Except.ok ((dedupUrls us).map (step fetch))) ∧
    getUrlsFromSitemap egSitemap
      = Except.ok ["https://a.com/1", "https://a.com/2", "https://a.com/1"] ∧
    getUrlsFromSitemap
        (SitemapDoc.sitemapindex [SitemapDoc.urlset [some "https://a.com/1"],
          SitemapDoc.malformed])
      = Except.error malformedSitemapMsg := by
  refine ⟨fun entries => rfl, ?_, rfl, ?_, ?_, ?_, rfl, rfl⟩
  · intro cs ls h
    show sitemapChildren cs = Except.ok ls.flatten
    exact sitemapChildren_ok h
  · intro pre c post e hpre hc
    show sitemapChildren (pre ++ c :: post) = Except.error e
    exact sitemapChildren_error pre c post e hpre hc
  · intro doc fetch e h
    unfold runSitemapMode
    rw [h]
  · intro doc fetch us h
    simp only [runSitemapMode, h, pipelineRows_eq]
    rfl

theorem claim_C9_witness :
    getUrlsFromSitemap (SitemapDoc.sitemapindex [SitemapDoc.urlset [some "https://a.com/1"]])
        = Except.ok ((["https://a.com/1"] : List String) :: []).flatten ∧
    getUrlsFromSitemap
        (SitemapDoc.sitemapindex [SitemapDoc.urlset [some "x"], SitemapDoc.malformed])
      = Except.error malformedSitemapMsg ∧
    runSitemapMode SitemapDoc.malformed egFetch = Except.error malformedSitemapMsg ∧
    runSitemapMode egSitemap egFetch
      = Except.ok ((dedupUrls ["https://a.com/1", "https://a.com/2", "https://a.com/1"]).map
          (step egFetch)) :=
  ⟨claim_C9_sitemap.2.1 [SitemapDoc.urlset [some "https://a.com/1"]] [["https://a.com/1"]]
      (List.forall₂_cons.mpr ⟨rfl, List.Forall₂.nil⟩),
   claim_C9_sitemap.2.2.2.1 [SitemapDoc.urlset [some "x"]] SitemapDoc.malformed [] _
      (fun d hd => by
        rw [List.mem_singleton.mp hd]
        exact ⟨["x"], rfl⟩) rfl,
   claim_C9_sitemap.2.2.2.2.1 SitemapDoc.malformed egFetch _ rfl,
   claim_C9_sitemap.2.2.2.2.2.1 egSitemap egFetch _ rfl⟩

/-- **C10.** URL deduplication is exact string equality with no
normalisation: any two textually different input URLs (trailing slash, host
case, fragment) are both kept, each appearing exactly once and producing its
own output row; the concrete file with three near-duplicates of one URL
yields four rows. -/
theorem claim_C10_dedup_exact :
    (∀ (urls : List String) (u v : String), u ∈ urls → v ∈ urls → u ≠ v → u ≠ "" → v ≠ "" →
      u ∈ dedupUrls urls ∧ v ∈ dedupUrls urls ∧
      (dedupUrls urls).count u = 1 ∧ (dedupUrls urls).count v = 1 ∧
      (∀ fetch : String → Except String Node,
        ((completedRows fetch urls).map rowUrl).count u = 1 ∧
        ((completedRows fetch urls).map rowUrl).count v = 1)) ∧
    getUrlsFromFile egUrlsFileRaw
      = ["https://a.com/x", "https://a.com/x", "https://A.com/x", "https://a.com/x/",
         "https://a.com/x#f"] ∧
    dedupUrls (getUrlsFromFile egUrlsFileRaw)
      = ["https://a.com/x", "https://A.com/x", "https://a.com/x/", "https://a.com/x#f"] ∧
    (pipelineRows egFetch (getUrlsFromFile egUrlsFileRaw)).length = 4 := by
  refine ⟨?_, by decide, by decide, by decide⟩
  intro urls u v hu hv huv hu0 hv0
  have hmu : u ∈ dedupUrls urls := mem_dedupUrls.mpr ⟨hu, hu0⟩
  have hmv : v ∈ dedupUrls urls := mem_dedupUrls.mpr ⟨hv, hv0⟩
  have hnd := dedupUrls_nodup urls
  refine ⟨hmu, hmv, List.count_eq_one_of_mem hnd hmu, List.count_eq_one_of_mem hnd hmv, ?_⟩
  intro fetch
  rw [map_rowUrl_completedRows]
  exact ⟨List.count_eq_one_of_mem hnd hmu, List.count_eq_one_of_mem hnd hmv⟩

theorem claim_C10_witness :
    "https://a.com/x" ∈ dedupUrls (getUrlsFromFile egUrlsFileRaw) ∧
    (dedupUrls (getUrlsFromFile egUrlsFileRaw)).count "https://a.com/x/" = 1 :=
  have h := claim_C10_dedup_exact.1 (getUrlsFromFile egUrlsFileRaw)
    "https://a.com/x" "https://a.com/x/"
    (by decide) (by decide) (by decide) (by decide) (by decide)
  ⟨h.1, h.2.2.2.1⟩

/-- **C2.** For every run, the output has exactly one row per deduplicated
input URL, appearing in first-seen input order, regardless of the order in
which the concurrent tasks completed: any permutation of the per-URL results
reorders to the canonical row list, whose length is the deduplicated count
and whose URL column is exactly the deduplicated input list (itself the
first-seen-order deduplication of the input). -/
theorem claim_C2_row_order :
    ∀ (urls : List String) (fetch : String → Except String Node) (rows : List Row),
      rows.Perm (completedRows fetch urls) →
      orderRows urls rows = completedRows fetch urls ∧
      (orderRows urls rows).length = (dedupUrls urls).length ∧
      (orderRows urls rows).map rowUrl = dedupUrls urls ∧
      dedupAux [] urls
        = urls.foldl (fun acc u => if u ∈ acc then acc else acc ++ [u]) [] ∧
      (∀ u, u ∈ dedupUrls urls ↔ u ∈ urls ∧ u ≠ "") := by
  intro urls fetch rows h
  have he := orderRows_eq urls fetch rows h
  refine ⟨he, ?_, ?_, ?_, fun u => mem_dedupUrls⟩
  · rw [he]
    unfold completedRows
    rw [List.length_map]
  · rw [he]
    exact map_rowUrl_completedRows fetch urls
  · rw [dedupAux_eq_foldl urls [] [] (fun x => by simp)]
    simp

theorem claim_C2_witness :
    orderRows ["https://a.com/ok", "https://a.com/bad"]
        [step egFetch "https://a.com/bad", step egFetch "https://a.com/ok"]
      = completedRows egFetch ["https://a.com/ok", "https://a.com/bad"] ∧
    (orderRows ["https://a.com/ok", "https://a.com/bad"]
        [step egFetch "https://a.com/bad", step egFetch "https://a.com/ok"]).length
      = (dedupUrls ["https://a.com/ok", "https://a.com/bad"]).length :=
  have h := claim_C2_row_order ["https://a.com/ok", "https://a.com/bad"] egFetch
    [step egFetch "https://a.com/bad", step egFetch "https://a.com/ok"] (by decide)
  ⟨h.1, h.2.1⟩

/-- **C1.** For every URL whose fetch fails, the run still emits a row for
that URL: the degraded row `Row.failed url reason` (URL populated, error
reason present, and — by the very shape of that constructor — no content
fields) sits at the URL's position in the output, every other deduplicated
URL still gets its row, and rows of sibling URLs are unaffected by the
failure (they only depend on the fetch outcome of their own URL). -/
theorem claim_C1_degraded_rows :
    ∀ (urls : List String) (fetch : String → Except String Node) (rows : List Row)
      (u e : String),
      rows.Perm (completedRows fetch urls) →
      u ∈ dedupUrls urls →
      fetch u = Except.error e →
      step fetch u = Row.failed u e ∧
      Row.failed u e ∈ orderRows urls rows ∧
      (∀ i : Nat, (dedupUrls urls)[i]? = some u →
        (orderRows urls rows)[i]? = some (Row.failed u e)) ∧
      (orderRows urls rows).map rowUrl = dedupUrls urls ∧
      (∀ (fetch2 : String → Except String Node) (rows2 : List Row),
        (∀ v, v ≠ u → fetch2 v = fetch v) →
        rows2.Perm (completedRows fetch2 urls) →
        ∀ (i : Nat) (v : String), (dedupUrls urls)[i]? = some v → v ≠ u →
          (orderRows urls rows2)[i]? = (orderRows urls rows)[i]?) := by
  intro urls fetch rows u e hperm hu hf
  have hstep : step fetch u = Row.failed u e := by
    unfold step
    rw [hf]
  have he := orderRows_eq urls fetch rows hperm
  refine ⟨hstep, ?_, ?_, ?_, ?_⟩
  · rw [he]
    have hm := List.mem_map_of_mem (step fetch) hu
    rwa [hstep] at hm
  · intro i hi
    rw [he]
    unfold completedRows
    rw [List.getElem?_map, hi]
    rw [Option.map_some', hstep]
  · rw [he]
    exact map_rowUrl_completedRows fetch urls
  · intro fetch2 rows2 hagree hperm2 i v hi hvu
    rw [he, orderRows_eq urls fetch2 rows2 hperm2]
    unfold completedRows
    rw [List.getElem?_map, List.getElem?_map, hi, Option.map_some', Option.map_some']
    congr 1
    unfold step
    rw [hagree v hvu]

theorem claim_C1_witness :
    step egFetch "https://a.com/bad"
        = Row.failed "https://a.com/bad" "timeout of 20000ms exceeded" ∧
    Row.failed "https://a.com/bad" "timeout of 20000ms exceeded"
      ∈ orderRows ["https://a.com/ok", "https://a.com/bad"]
          [step egFetch "https://a.com/bad", step egFetch "https://a.com/ok"] :=
  have h := claim_C1_degraded_rows ["https://a.com/ok", "https://a.com/bad"] egFetch
    [step egFetch "https://a.com/bad", step egFetch "https://a.com/ok"]
    "https://a.com/bad" "timeout of 20000ms exceeded" (by decide) (by decide) rfl
  ⟨h.1, h.2.1⟩
